import Mathlib

/-!
Verification of the content-classification and dispatch pipeline of the
hybrid math-OCR tool (`scripts/math-ocr-v2.py`, one-shot CLI variant) and its
long-running service variant (`scripts/math-ocr-service.py`).

The pure decision core (cropping scan, simple/complex classification,
dispatch and fallback, batch aggregation, resource lifecycle) is embedded
shallowly.  The two OCR engines, the filesystem and PIL are external
collaborators: they are modelled as per-image oracles (an `Except` value for
each engine call, covering both the returned text and a raised exception).
Python `float` division in the classifier is modelled by exact rational
division; every comparison proved here is far from any rounding boundary of
IEEE doubles, so the model and the Python code agree on all inputs involved.
-/

/-- Embedding of `is_simple_content` (identical in `math-ocr-v2.py` lines
179-225 and `math-ocr-service.py` lines 135-151).  Decides whether raw
content dimensions look like a simple token (`true`) or a formula
(`false`).  Python's float division is modelled as exact division in ℚ. -/
def is_simple_content (content_width content_height : Nat)
    (area_threshold : Nat := 5000) (max_dimension : Nat := 80) : Bool :=
  let area := content_width * content_height
  if content_height = 0 then true
  else
    let aspect : ℚ := (content_width : ℚ) / (content_height : ℚ)
    if aspect > 2.5 then false
    else if aspect < 0.35 then false
    else if area < area_threshold ∧ 0.35 ≤ aspect ∧ aspect ≤ 2.0 then true
    else if content_width < max_dimension ∧ content_height < max_dimension then
      if 0.35 ≤ aspect ∧ aspect ≤ 2.0 then true else false
    else false

/-- C1: the six boundary cases of the classifier hold with the default
thresholds: (0,0), (20,20) and (79,79) classify Simple; (100,10), (50,200)
and (80,80) classify Complex. -/
theorem c1_classify_boundary_cases :
    is_simple_content 0 0 = true ∧
    is_simple_content 100 10 = false ∧
    is_simple_content 50 200 = false ∧
    is_simple_content 20 20 = true ∧
    is_simple_content 79 79 = true ∧
    is_simple_content 80 80 = false := by
  refine ⟨?_, ?_, ?_, ?_, ?_, ?_⟩ <;> norm_num [is_simple_content]

/-- A grayscale image as the cropping scan sees it: a width, a height and a
luminance value for each coordinate pair (the model of `img.load()` /
`pixels[x, y]` after `convert("L")`). -/
structure GrayImage where
  w : Nat
  h : Nat
  pix : Nat → Nat → Nat

/-- One step of the pixel scan in `crop_to_content`: update the running
bounds `(min_x, min_y, max_x, max_y)` at column `x` of row `y` when the
pixel is darker than the threshold. -/
def darkStep (threshold : Nat) (pix : Nat → Nat → Nat) (y : Nat)
    (b : Nat × Nat × Nat × Nat) (x : Nat) : Nat × Nat × Nat × Nat :=
  if pix x y < threshold then (min b.1 x, min b.2.1 y, max b.2.2.1 x, max b.2.2.2 y)
  else b

/-- The double loop `for y in range(h): for x in range(w):` of
`crop_to_content`, starting from `(w, h, 0, 0)`. -/
def contentFold (img : GrayImage) (threshold : Nat) : Nat × Nat × Nat × Nat :=
  (List.range img.h).foldl
    (fun b y => (List.range img.w).foldl (darkStep threshold img.pix y) b)
    (img.w, img.h, 0, 0)

/-- Embedding of `crop_to_content` (identical in `math-ocr-v2.py` lines
134-176 and `math-ocr-service.py` lines 105-132).  The cropped image is
represented by its crop box `(crop_min_x, crop_min_y, crop_max_x,
crop_max_y)`; `max(0, a - padding)` is Nat truncated subtraction.  Returns
the optional crop box and `(raw_w, raw_h, padded_w, padded_h)`. -/
def crop_to_content (img : GrayImage) (padding : Nat := 20) (threshold : Nat := 250) :
    Option (Nat × Nat × Nat × Nat) × (Nat × Nat × Nat × Nat) :=
  let b := contentFold img threshold
  let min_x := b.1
  let min_y := b.2.1
  let max_x := b.2.2.1
  let max_y := b.2.2.2
  if max_x ≤ min_x ∨ max_y ≤ min_y then (none, (0, 0, 0, 0))
  else
    let raw_w := max_x - min_x
    let raw_h := max_y - min_y
    let crop_min_x := min_x - padding
    let crop_min_y := min_y - padding
    let crop_max_x := min img.w (max_x + padding)
    let crop_max_y := min img.h (max_y + padding)
    (some (crop_min_x, crop_min_y, crop_max_x, crop_max_y),
      (raw_w, raw_h, crop_max_x - crop_min_x, crop_max_y - crop_min_y))

/-- A fold preserves any invariant preserved by each step. -/
theorem foldlInvariant {α β : Type} (P : β → Prop) (f : β → α → β) :
    ∀ (l : List α) (b : β), (∀ b a, a ∈ l → P b → P (f b a)) → P b → P (l.foldl f b) := by
  intro l
  induction l with
  | nil => intro b _ hb; exact hb
  | cons a t ih =>
    intro b hstep hb
    exact ih (f b a) (fun b' a' ha' hb' => hstep b' a' (List.mem_cons_of_mem _ ha') hb')
      (hstep b a (List.mem_cons_self _ _) hb)

/-- If every dark pixel of the scanned region sits in column `x0`, the scan
leaves `max_x ≤ x0 ≤ min_x`. -/
theorem contentFold_single_column (img : GrayImage) (threshold x0 : Nat)
    (hx0 : x0 < img.w)
    (hcol : ∀ x y, x < img.w → y < img.h → img.pix x y < threshold → x = x0) :
    (contentFold img threshold).2.2.1 ≤ x0 ∧ x0 ≤ (contentFold img threshold).1 := by
  unfold contentFold
  refine foldlInvariant (fun b : Nat × Nat × Nat × Nat => b.2.2.1 ≤ x0 ∧ x0 ≤ b.1)
    _ _ _ ?_ ⟨Nat.zero_le x0, le_of_lt hx0⟩
  intro b y hy hb
  refine foldlInvariant (fun b : Nat × Nat × Nat × Nat => b.2.2.1 ≤ x0 ∧ x0 ≤ b.1)
    _ _ _ ?_ hb
  intro b' x hx hb'
  unfold darkStep
  split
  · rename_i hdk
    have hxx : x = x0 :=
      hcol x y (List.mem_range.mp hx) (List.mem_range.mp hy) hdk
    subst hxx
    exact ⟨max_le hb'.1 le_rfl, le_min hb'.2 le_rfl⟩
  · exact hb'

/-- If every dark pixel of the scanned region sits in row `y0`, the scan
leaves `max_y ≤ y0 ≤ min_y`. -/
theorem contentFold_single_row (img : GrayImage) (threshold y0 : Nat)
    (hy0 : y0 < img.h)
    (hrow : ∀ x y, x < img.w → y < img.h → img.pix x y < threshold → y = y0) :
    (contentFold img threshold).2.2.2 ≤ y0 ∧ y0 ≤ (contentFold img threshold).2.1 := by
  unfold contentFold
  refine foldlInvariant (fun b : Nat × Nat × Nat × Nat => b.2.2.2 ≤ y0 ∧ y0 ≤ b.2.1)
    _ _ _ ?_ ⟨Nat.zero_le y0, le_of_lt hy0⟩
  intro b y hy hb
  refine foldlInvariant (fun b : Nat × Nat × Nat × Nat => b.2.2.2 ≤ y0 ∧ y0 ≤ b.2.1)
    _ _ _ ?_ hb
  intro b' x hx hb'
  unfold darkStep
  split
  · rename_i hdk
    have hyy : y = y0 :=
      hrow x y (List.mem_range.mp hx) (List.mem_range.mp hy) hdk
    subst hyy
    exact ⟨max_le hb'.1 le_rfl, le_min hb'.2 le_rfl⟩
  · exact hb'

/-- C10: an image that does contain dark pixels, but whose dark pixels all
share one column (or all share one row) — in particular an image with
exactly one dark pixel — is reported as having no content: the degenerate
box test `max_x <= min_x or max_y <= min_y` fires when min equals max on an
axis, so `crop_to_content` returns `None` and all four dimensions zero. -/
theorem c10_single_row_or_column_no_content
    (img : GrayImage) (padding threshold : Nat)
    (hdark : ∃ q : Nat × Nat, q.1 < img.w ∧ q.2 < img.h ∧ img.pix q.1 q.2 < threshold)
    (hline :
      (∀ x y x' y', x < img.w → y < img.h → img.pix x y < threshold →
        x' < img.w → y' < img.h → img.pix x' y' < threshold → x = x') ∨
      (∀ x y x' y', x < img.w → y < img.h → img.pix x y < threshold →
        x' < img.w → y' < img.h → img.pix x' y' < threshold → y = y')) :
    crop_to_content img padding threshold = (none, (0, 0, 0, 0)) := by
  obtain ⟨⟨x0, y0⟩, hx0, hy0, hd0⟩ := hdark
  have key : (contentFold img threshold).2.2.1 ≤ (contentFold img threshold).1 ∨
      (contentFold img threshold).2.2.2 ≤ (contentFold img threshold).2.1 := by
    rcases hline with hcol | hrow
    · left
      have hP := contentFold_single_column img threshold x0 hx0
        (fun x y hx hy hdk => hcol x y x0 y0 hx hy hdk hx0 hy0 hd0)
      exact le_trans hP.1 hP.2
    · right
      have hP := contentFold_single_row img threshold y0 hy0
        (fun x y hx hy hdk => hrow x y x0 y0 hx hy hdk hx0 hy0 hd0)
      exact le_trans hP.1 hP.2
  simp only [crop_to_content]
  rw [if_pos key]

/-- Witness for C10: a 2×2 image whose only dark pixel is at the origin
satisfies the hypotheses, and the locator reports no content on it. -/
theorem c10_witness :
    ((∃ q : Nat × Nat,
        q.1 < (GrayImage.mk 2 2 (fun x y => if x = 0 ∧ y = 0 then 0 else 255)).w ∧
        q.2 < (GrayImage.mk 2 2 (fun x y => if x = 0 ∧ y = 0 then 0 else 255)).h ∧
        (GrayImage.mk 2 2 (fun x y => if x = 0 ∧ y = 0 then 0 else 255)).pix q.1 q.2 < 250)) ∧
    crop_to_content (GrayImage.mk 2 2 (fun x y => if x = 0 ∧ y = 0 then 0 else 255)) 20 250
      = (none, (0, 0, 0, 0)) := by
  have hex : ∃ q : Nat × Nat,
      q.1 < (GrayImage.mk 2 2 (fun x y => if x = 0 ∧ y = 0 then 0 else 255)).w ∧
      q.2 < (GrayImage.mk 2 2 (fun x y => if x = 0 ∧ y = 0 then 0 else 255)).h ∧
      (GrayImage.mk 2 2 (fun x y => if x = 0 ∧ y = 0 then 0 else 255)).pix q.1 q.2 < 250 :=
    ⟨(0, 0), by norm_num⟩
  refine ⟨hex, ?_⟩
  apply c10_single_row_or_column_no_content _ _ _ hex
  left
  intro x y x' y' hx hy hdk hx' hy' hdk'
  simp only [GrayImage.pix] at hdk hdk'
  by_cases h1 : x = 0 ∧ y = 0
  · by_cases h2 : x' = 0 ∧ y' = 0
    · rw [h1.1, h2.1]
    · rw [if_neg h2] at hdk'; omega
  · rw [if_neg h1] at hdk; omega

/-- Per-image oracle for the external collaborators of one `ocr_image` call:
the outcome of `crop_to_content` on the image file (an exception, a
no-content `None`, or the raw content dimensions fed to the classifier), and
the outcome of each engine's recognize call on the padded crop of this image
(`.error` models a raised exception, e.g. `RuntimeError("... not
available")`, carrying `str(e)`). -/
structure ImageEnv where
  crop : Except String (Option (Nat × Nat))
  easy : Except String String
  pix : Except String String

/-- Result dictionary built by `HybridOCR.ocr_image` (`math-ocr-v2.py`):
`is_simple = none` models the dict without an `is_simple` key. -/
structure OCRResult where
  success : Bool
  latex : String
  file : String
  error : Option String
  method : String
  content_size : Nat × Nat
  is_simple : Option Bool := none
deriving DecidableEq

/-- Result dictionary built by `OCRService.ocr_image`
(`math-ocr-service.py`), which carries no `content_size` key. -/
structure SvcOCRResult where
  success : Bool
  latex : String
  file : String
  error : Option String
  method : String
  is_simple : Option Bool := none
deriving DecidableEq

/-- Python `str.isdigit`: nonempty and all digits. -/
def pyIsDigit (s : String) : Bool := !s.isEmpty && s.all Char.isDigit

/-- Python `text.strip()`: drop whitespace from both ends.  Modelled over
the character list (extensionally `String.trim`, which is not
kernel-reducible). -/
def pyStrip (s : String) : String :=
  ⟨((s.data.dropWhile Char.isWhitespace).reverse.dropWhile Char.isWhitespace).reverse⟩

/-- Reduction of `do`-bind on an `Except.ok` value. -/
theorem exceptOkBind {ε α β : Type} (a : α) (f : α → Except ε β) :
    (Except.ok a : Except ε α) >>= f = f a := rfl

/-- Reduction of `do`-bind on an `Except.error` value. -/
theorem exceptErrorBind {ε α β : Type} (e : ε) (f : α → Except ε β) :
    (Except.error e : Except ε α) >>= f = Except.error e := rfl

/-- Reduction of `pure` for `Except`. -/
theorem exceptPure {ε α : Type} (a : α) : (pure a : Except ε α) = Except.ok a := rfl

/-- The body of the `try:` block of `HybridOCR.ocr_image` (`math-ocr-v2.py`
lines 345-396); a raised exception is the `.error` case. -/
def HybridOCR.ocr_image_run (env : ImageEnv) (image_path : String) :
    Except String OCRResult := do
  let cr ← env.crop
  match cr with
  | none =>
    return { success := false, latex := "", file := image_path,
             error := some "No content found", method := "none", content_size := (0, 0) }
  | some (content_w, content_h) =>
    let is_simple := is_simple_content content_w content_h
    if is_simple then
      let t ← env.easy
      let text := pyStrip t
      let (text, method) ←
        if text = "" then do
          let p ← env.pix
          pure (p, "easyocr+pix2tex")
        else pure ((text : String), ("easyocr" : String))
      let latex :=
        if pyIsDigit text then text
        else if pyIsDigit ((text.replace "." "").replace "," "") then text
        else text
      return { success := true, latex := latex, file := image_path, error := none,
               method := method, content_size := (content_w, content_h),
               is_simple := some is_simple }
    else
      let latex ← env.pix
      return { success := true, latex := latex, file := image_path, error := none,
               method := "pix2tex", content_size := (content_w, content_h),
               is_simple := some is_simple }

/-- Embedding of `HybridOCR.ocr_image` (`math-ocr-v2.py` lines 337-406):
the `try/except` wrapper turning any raised exception into a failure
dictionary with `method = "error"`. -/
def HybridOCR.ocr_image (env : ImageEnv) (image_path : String) : OCRResult :=
  match HybridOCR.ocr_image_run env image_path with
  | .ok r => r
  | .error e =>
    { success := false, latex := "", file := image_path, error := some e,
      method := "error", content_size := (0, 0) }

/-- The body of the `try:` block of `OCRService.ocr_image`
(`math-ocr-service.py` lines 233-268). -/
def OCRService.ocr_image_run (env : ImageEnv) (image_path : String) :
    Except String SvcOCRResult := do
  let cr ← env.crop
  match cr with
  | none =>
    return { success := false, latex := "", file := image_path,
             error := some "No content found", method := "none" }
  | some (content_w, content_h) =>
    let is_simple := is_simple_content content_w content_h
    if is_simple then
      let t ← env.easy
      let text := pyStrip t
      let (text, method) ←
        if text = "" then do
          let p ← env.pix
          pure (p, "easyocr+pix2tex")
        else pure ((text : String), ("easyocr" : String))
      let latex := text
      return { success := true, latex := latex, file := image_path, error := none,
               method := method, is_simple := some is_simple }
    else
      let latex ← env.pix
      return { success := true, latex := latex, file := image_path, error := none,
               method := "pix2tex", is_simple := some is_simple }

/-- Embedding of `OCRService.ocr_image` (`math-ocr-service.py` lines
231-276). -/
def OCRService.ocr_image (env : ImageEnv) (image_path : String) : SvcOCRResult :=
  match OCRService.ocr_image_run env image_path with
  | .ok r => r
  | .error e =>
    { success := false, latex := "", file := image_path, error := some e,
      method := "error" }

/-- C2: on a Simple-classified image, if the text engine's recognized text
is empty after trimming, both dispatchers escalate to the formula engine on
the same crop and return its output with `method = "easyocr+pix2tex"`;
otherwise they return the trimmed text-engine output with
`method = "easyocr"`. -/
theorem c2_simple_escalation (env : ImageEnv) (p : String) (w h : Nat) (t : String)
    (hcrop : env.crop = .ok (some (w, h)))
    (hsimple : is_simple_content w h = true)
    (heasy : env.easy = .ok t) :
    (∀ q, pyStrip t = "" → env.pix = .ok q →
      HybridOCR.ocr_image env p =
        { success := true, latex := q, file := p, error := none,
          method := "easyocr+pix2tex", content_size := (w, h), is_simple := some true } ∧
      OCRService.ocr_image env p =
        { success := true, latex := q, file := p, error := none,
          method := "easyocr+pix2tex", is_simple := some true }) ∧
    (pyStrip t ≠ "" →
      HybridOCR.ocr_image env p =
        { success := true, latex := pyStrip t, file := p, error := none,
          method := "easyocr", content_size := (w, h), is_simple := some true } ∧
      OCRService.ocr_image env p =
        { success := true, latex := pyStrip t, file := p, error := none,
          method := "easyocr", is_simple := some true }) := by
  constructor
  · intro q hempty hpix
    constructor
    · simp [HybridOCR.ocr_image, HybridOCR.ocr_image_run, hcrop, hsimple, heasy,
        hempty, hpix, exceptOkBind, exceptPure]
    · simp [OCRService.ocr_image, OCRService.ocr_image_run, hcrop, hsimple, heasy,
        hempty, hpix, exceptOkBind, exceptPure]
  · intro hne
    constructor
    · simp [HybridOCR.ocr_image, HybridOCR.ocr_image_run, hcrop, hsimple, heasy, hne,
        exceptOkBind, exceptPure]
    · simp [OCRService.ocr_image, OCRService.ocr_image_run, hcrop, hsimple, heasy, hne,
        exceptOkBind, exceptPure]

/-- Witness for C2: a 20×20 Simple crop where the text engine returns
whitespace escalates to the formula engine; one where it returns " 42 "
keeps the text engine's trimmed output. -/
theorem c2_witness :
    HybridOCR.ocr_image ⟨.ok (some (20, 20)), .ok "   ", .ok "x+1"⟩ "a.png" =
      { success := true, latex := "x+1", file := "a.png", error := none,
        method := "easyocr+pix2tex", content_size := (20, 20), is_simple := some true } ∧
    OCRService.ocr_image ⟨.ok (some (20, 20)), .ok " 42 ", .ok "x+1"⟩ "b.png" =
      { success := true, latex := "42", file := "b.png", error := none,
        method := "easyocr", is_simple := some true } :=
  ⟨((c2_simple_escalation ⟨.ok (some (20, 20)), .ok "   ", .ok "x+1"⟩ "a.png" 20 20 "   "
      rfl (by norm_num [is_simple_content]) rfl).1 "x+1" (by decide) rfl).1,
   ((c2_simple_escalation ⟨.ok (some (20, 20)), .ok " 42 ", .ok "x+1"⟩ "b.png" 20 20 " 42 "
      rfl (by norm_num [is_simple_content]) rfl).2 (by decide)).2⟩

/-- C4: every exception raised while locating, classifying or recognizing
is caught inside `ocr_image` (both variants) and converted into a result
with `success = false`, `error` equal to the exception's message and
`method = "error"`.  `ocr_image` is a total function of its oracles, so it
never propagates an exception to its caller. -/
theorem c4_dispatcher_catches_exceptions (env : ImageEnv) (p e : String) :
    (env.crop = .error e →
      HybridOCR.ocr_image env p =
        { success := false, latex := "", file := p, error := some e,
          method := "error", content_size := (0, 0) } ∧
      OCRService.ocr_image env p =
        { success := false, latex := "", file := p, error := some e,
          method := "error" }) ∧
    (∀ w h, env.crop = .ok (some (w, h)) → is_simple_content w h = true →
      env.easy = .error e →
      HybridOCR.ocr_image env p =
        { success := false, latex := "", file := p, error := some e,
          method := "error", content_size := (0, 0) } ∧
      OCRService.ocr_image env p =
        { success := false, latex := "", file := p, error := some e,
          method := "error" }) ∧
    (∀ w h t, env.crop = .ok (some (w, h)) → is_simple_content w h = true →
      env.easy = .ok t → pyStrip t = "" → env.pix = .error e →
      HybridOCR.ocr_image env p =
        { success := false, latex := "", file := p, error := some e,
          method := "error", content_size := (0, 0) } ∧
      OCRService.ocr_image env p =
        { success := false, latex := "", file := p, error := some e,
          method := "error" }) ∧
    (∀ w h, env.crop = .ok (some (w, h)) → is_simple_content w h = false →
      env.pix = .error e →
      HybridOCR.ocr_image env p =
        { success := false, latex := "", file := p, error := some e,
          method := "error", content_size := (0, 0) } ∧
      OCRService.ocr_image env p =
        { success := false, latex := "", file := p, error := some e,
          method := "error" }) := by
  refine ⟨?_, ?_, ?_, ?_⟩
  · intro hcrop
    constructor
    · simp [HybridOCR.ocr_image, HybridOCR.ocr_image_run, hcrop, exceptErrorBind]
    · simp [OCRService.ocr_image, OCRService.ocr_image_run, hcrop, exceptErrorBind]
  · intro w h hcrop hsimple heasy
    constructor
    · simp [HybridOCR.ocr_image, HybridOCR.ocr_image_run, hcrop, hsimple, heasy,
        exceptOkBind, exceptErrorBind]
    · simp [OCRService.ocr_image, OCRService.ocr_image_run, hcrop, hsimple, heasy,
        exceptOkBind, exceptErrorBind]
  · intro w h t hcrop hsimple heasy hempty hpix
    constructor
    · simp [HybridOCR.ocr_image, HybridOCR.ocr_image_run, hcrop, hsimple, heasy,
        hempty, hpix, exceptOkBind, exceptErrorBind, exceptPure]
    · simp [OCRService.ocr_image, OCRService.ocr_image_run, hcrop, hsimple, heasy,
        hempty, hpix, exceptOkBind, exceptErrorBind, exceptPure]
  · intro w h hcrop hsimple hpix
    constructor
    · simp [HybridOCR.ocr_image, HybridOCR.ocr_image_run, hcrop, hsimple, hpix,
        exceptOkBind, exceptErrorBind]
    · simp [OCRService.ocr_image, OCRService.ocr_image_run, hcrop, hsimple, hpix,
        exceptOkBind, exceptErrorBind]

/-- Witness for C4: a crop that raises (message "boom") yields the failure
result in both variants, and a Complex crop whose formula engine raises
(message "cuda oom") does too. -/
theorem c4_witness :
    HybridOCR.ocr_image ⟨.error "boom", .ok "", .ok ""⟩ "x.png" =
      { success := false, latex := "", file := "x.png", error := some "boom",
        method := "error", content_size := (0, 0) } ∧
    OCRService.ocr_image ⟨.ok (some (100, 10)), .ok "", .error "cuda oom"⟩ "y.png" =
      { success := false, latex := "", file := "y.png", error := some "cuda oom",
        method := "error" } :=
  ⟨((c4_dispatcher_catches_exceptions ⟨.error "boom", .ok "", .ok ""⟩ "x.png" "boom").1
      rfl).1,
   ((c4_dispatcher_catches_exceptions ⟨.ok (some (100, 10)), .ok "", .error "cuda oom"⟩
      "y.png" "cuda oom").2.2.2 100 10 rfl (by norm_num [is_simple_content]) rfl).2⟩

/-- The comparison passed to the model of Python
`texts.sort(key=lambda x: x[1], reverse=True)`: `a` may stay before `b`
when `b`'s confidence is at most `a`'s.  A stable sort with this relation
is exactly Python's stable descending sort. -/
def descLE (a b : String × ℚ) : Bool := decide (b.2 ≤ a.2)

/-- Stable descending sort by confidence (Python `list.sort` is stable and
`reverse=True` keeps ties in list order). -/
def pySortByConfDesc (texts : List (String × ℚ)) : List (String × ℚ) :=
  texts.mergeSort descLE

/-- Embedding of the selection step of `ocr_simple` (`math-ocr-v2.py` lines
311-320 and `math-ocr-service.py` lines 211-217): from the `(text,
confidence)` regions returned by `easyocr_reader.readtext`, sort by
confidence descending and return the first text, or `""` when the engine
returned no region. -/
def ocr_simple_select (result : List (String × ℚ)) : String :=
  match pySortByConfDesc result with
  | [] => ""
  | t :: _ => t.1

/-- `descLE` is transitive. -/
theorem descLE_trans : ∀ (a b c : String × ℚ), descLE a b → descLE b c → descLE a c := by
  intro a b c hab hbc
  simp only [descLE, decide_eq_true_eq] at *
  exact le_trans hbc hab

/-- `descLE` is total. -/
theorem descLE_total : ∀ (a b : String × ℚ), descLE a b || descLE b a := by
  intro a b
  rcases le_total b.2 a.2 with h | h <;> simp [descLE, h]

/-- Specification function: the first region of maximal confidence. -/
def firstMaxRegion : List (String × ℚ) → Option (String × ℚ)
  | [] => none
  | a :: l =>
    match firstMaxRegion l with
    | none => some a
    | some b => if a.2 < b.2 then some b else some a

/-- `firstMaxRegion` is `none` exactly on the empty list. -/
theorem firstMaxRegion_eq_none {l : List (String × ℚ)} :
    firstMaxRegion l = none ↔ l = [] := by
  cases l with
  | nil => simp [firstMaxRegion]
  | cons a t =>
    simp only [firstMaxRegion]
    cases firstMaxRegion t with
    | none => simp
    | some b =>
      by_cases h : a.2 < b.2 <;> simp [h]

/-- The first maximal region is a member and bounds every confidence. -/
theorem firstMaxRegion_max : ∀ {l : List (String × ℚ)} {b},
    firstMaxRegion l = some b → b ∈ l ∧ ∀ c ∈ l, c.2 ≤ b.2 := by
  intro l
  induction l with
  | nil => intro b h; simp [firstMaxRegion] at h
  | cons a t ih =>
    intro b h
    rw [firstMaxRegion] at h
    cases hfm : firstMaxRegion t with
    | none =>
      rw [hfm] at h
      obtain rfl : a = b := by injection h
      have ht : t = [] := firstMaxRegion_eq_none.mp hfm
      subst ht
      simp
    | some m =>
      rw [hfm] at h
      dsimp only at h
      obtain ⟨hmem, hbound⟩ := ih hfm
      by_cases hab : a.2 < m.2
      · rw [if_pos hab] at h
        obtain rfl : m = b := by injection h
        exact ⟨List.mem_cons_of_mem _ hmem,
          fun c hc => by
            rcases List.mem_cons.mp hc with rfl | hc
            · exact le_of_lt hab
            · exact hbound c hc⟩
      · rw [if_neg hab] at h
        obtain rfl : a = b := by injection h
        exact ⟨List.mem_cons_self _ _,
          fun c hc => by
            rcases List.mem_cons.mp hc with rfl | hc
            · exact le_rfl
            · exact le_trans (hbound c hc) (not_lt.mp hab)⟩

/-- The head of the stable descending sort is the first maximal region. -/
theorem head_pySortByConfDesc : ∀ (l : List (String × ℚ)),
    (pySortByConfDesc l).head? = firstMaxRegion l := by
  intro l
  induction l with
  | nil => simp [pySortByConfDesc, firstMaxRegion]
  | cons a l ih =>
    obtain ⟨l₁, l₂, h₁, h₂, h₃⟩ := List.mergeSort_cons descLE_trans descLE_total a l
    simp only [pySortByConfDesc] at ih ⊢
    rw [h₁]
    cases l₁ with
    | nil =>
      simp only [List.nil_append, List.head?_cons]
      have hsorted := List.sorted_mergeSort descLE_trans descLE_total (a :: l)
      rw [h₁] at hsorted
      simp only [List.nil_append] at hsorted h₂
      have hle : ∀ c ∈ l, c.2 ≤ a.2 := by
        intro c hc
        have hc₂ : c ∈ l₂ := by rw [← h₂]; exact List.mem_mergeSort.mpr hc
        have := (List.pairwise_cons.mp hsorted).1 c hc₂
        simpa [descLE] using this
      rw [firstMaxRegion]
      cases hfm : firstMaxRegion l with
      | none => rfl
      | some b =>
        have hb := (firstMaxRegion_max hfm).1
        have hnb : ¬ a.2 < b.2 := not_lt.mpr (hle b hb)
        dsimp only
        rw [if_neg hnb]
    | cons c l₁' =>
      simp only [List.cons_append, List.head?_cons]
      have hac : a.2 < c.2 := by
        have := h₃ c (List.mem_cons_self _ _)
        simpa [descLE, not_le] using this
      have hhead : firstMaxRegion l = some c := by
        rw [← ih, h₂]
        simp
      rw [firstMaxRegion, hhead]
      dsimp only
      rw [if_pos hac]

/-- The first maximal region sits at an index whose confidence bounds all
others and strictly exceeds every earlier confidence. -/
theorem firstMaxRegion_index : ∀ {l : List (String × ℚ)} {m},
    firstMaxRegion l = some m →
    ∃ i : Fin l.length, l.get i = m ∧ (∀ j : Fin l.length, (l.get j).2 ≤ m.2) ∧
      ∀ j : Fin l.length, j.1 < i.1 → (l.get j).2 < m.2 := by
  intro l
  induction l with
  | nil => intro m h; simp [firstMaxRegion] at h
  | cons a l ih =>
    intro m h
    rw [firstMaxRegion] at h
    cases hfm : firstMaxRegion l with
    | none =>
      rw [hfm] at h
      obtain rfl : a = m := by injection h
      have hl : l = [] := firstMaxRegion_eq_none.mp hfm
      subst hl
      refine ⟨⟨0, by simp⟩, rfl, ?_, ?_⟩
      · intro j
        have hj1 : j.1 = 0 := by
          have := j.isLt
          simp only [List.length_cons, List.length_nil] at this
          omega
        have hj0 : j = ⟨0, by simp⟩ := Fin.ext hj1
        rw [hj0]
        exact le_rfl
      · intro j hj
        exact absurd hj (Nat.not_lt_zero _)
    | some b =>
      rw [hfm] at h
      dsimp only at h
      by_cases hab : a.2 < b.2
      · rw [if_pos hab] at h
        obtain rfl : b = m := by injection h
        obtain ⟨i, hget, hmax, hstrict⟩ := ih hfm
        refine ⟨i.succ, hget, ?_, ?_⟩
        · intro j
          cases j using Fin.cases with
          | zero => exact le_of_lt hab
          | succ j => exact hmax j
        · intro j hj
          cases j using Fin.cases with
          | zero => exact hab
          | succ j => exact hstrict j (by simpa using hj)
      · rw [if_neg hab] at h
        obtain rfl : a = m := by injection h
        obtain ⟨i, hget, hmax, hstrict⟩ := ih hfm
        refine ⟨⟨0, by simp⟩, rfl, ?_, ?_⟩
        · intro j
          cases j using Fin.cases with
          | zero => exact le_rfl
          | succ j => exact le_trans (hmax j) (not_lt.mp hab)
        · intro j hj
          exact absurd hj (Nat.not_lt_zero _)

/-- C8: on a nonempty list of `(text, confidence)` regions the adapter's
selection returns the text of the region with maximal confidence, breaking
ties in favour of the earliest region in the engine's list; on the empty
list it returns the empty string. -/
theorem c8_select_highest_confidence :
    ocr_simple_select [] = "" ∧
    ∀ (result : List (String × ℚ)), result ≠ [] →
      ∃ i : Fin result.length,
        ocr_simple_select result = (result.get i).1 ∧
        (∀ j : Fin result.length, (result.get j).2 ≤ (result.get i).2) ∧
        (∀ j : Fin result.length, j.1 < i.1 → (result.get j).2 < (result.get i).2) := by
  constructor
  · simp [ocr_simple_select, pySortByConfDesc]
  · intro result hne
    cases hfm : firstMaxRegion result with
    | none => exact absurd (firstMaxRegion_eq_none.mp hfm) hne
    | some m =>
      obtain ⟨i, hget, hmax, hstrict⟩ := firstMaxRegion_index hfm
      have hhead := head_pySortByConfDesc result
      rw [hfm] at hhead
      refine ⟨i, ?_, by rw [hget]; exact hmax, by rw [hget]; exact hstrict⟩
      rw [ocr_simple_select]
      cases hsort : pySortByConfDesc result with
      | nil => rw [hsort] at hhead; simp at hhead
      | cons x xs =>
        rw [hsort] at hhead
        simp only [List.head?_cons, Option.some.injEq] at hhead
        rw [hget, hhead]

/-- Witness for C8: on the concrete region list
`[("b", 2), ("c", 2), ("a", 1)]` the selection hypotheses hold and the
selected region is the earliest maximal one. -/
theorem c8_witness :
    ([(("b" : String), (2 : ℚ)), ("c", 2), ("a", 1)] ≠
      ([] : List (String × ℚ))) ∧
    (∃ i : Fin 3,
      ocr_simple_select [(("b" : String), (2 : ℚ)), ("c", 2), ("a", 1)] =
        (([(("b" : String), (2 : ℚ)), ("c", 2), ("a", 1)]).get i).1 ∧
      (∀ j : Fin 3, (([(("b" : String), (2 : ℚ)), ("c", 2), ("a", 1)]).get j).2 ≤
        (([(("b" : String), (2 : ℚ)), ("c", 2), ("a", 1)]).get i).2) ∧
      (∀ j : Fin 3, j.1 < i.1 →
        (([(("b" : String), (2 : ℚ)), ("c", 2), ("a", 1)]).get j).2 <
        (([(("b" : String), (2 : ℚ)), ("c", 2), ("a", 1)]).get i).2)) :=
  ⟨by simp,
   c8_select_highest_confidence.2 [(("b" : String), (2 : ℚ)), ("c", 2), ("a", 1)]
     (by simp)⟩

/-- Python dict assignment `results[k] = v` on an insertion-ordered
association list: overwrite in place when the key is present, else append. -/
def dictSet (d : List (String × String)) (k v : String) : List (String × String) :=
  if d.any (fun p => p.1 == k) then
    d.map (fun p => if p.1 == k then (k, v) else p)
  else d ++ [(k, v)]

/-- Python `str(...)` of the optional error message inside the f-string
`f"[ERROR: {result['error']}]"` (`None` prints as `"None"`; on the failure
paths the message is always present). -/
def pyStr : Option String → String
  | some s => s
  | none => "None"

/-- Aggregation state of the batch loop: the results mapping, the error
records `{file, error}`, and the simple/complex counters. -/
structure BatchAcc where
  results : List (String × String)
  errors : List (String × Option String)
  simple_count : Nat
  complex_count : Nat
deriving DecidableEq

/-- One iteration of the `for i, img_path in enumerate(image_files, 1):`
loop of `HybridOCR.ocr_directory` (`math-ocr-v2.py` lines 445-458):
successes store their text and bump a counter according to the truthiness
of `result.get("is_simple")`; failures append an error record and store the
sentinel string. -/
def batchStep (acc : BatchAcc) (f : String × ImageEnv) : BatchAcc :=
  let r := HybridOCR.ocr_image f.2 f.1
  if r.success then
    { acc with
      results := dictSet acc.results f.1 r.latex,
      simple_count := if r.is_simple.getD false then acc.simple_count + 1
        else acc.simple_count,
      complex_count := if r.is_simple.getD false then acc.complex_count
        else acc.complex_count + 1 }
  else
    { acc with
      results := dictSet acc.results f.1 ("[ERROR: " ++ pyStr r.error ++ "]"),
      errors := acc.errors ++ [(f.1, r.error)] }

/-- The loop of `OCRService.ocr_directory` (`math-ocr-service.py` lines
302-314), identical except that it calls the service dispatcher. -/
def svcBatchStep (acc : BatchAcc) (f : String × ImageEnv) : BatchAcc :=
  let r := OCRService.ocr_image f.2 f.1
  if r.success then
    { acc with
      results := dictSet acc.results f.1 r.latex,
      simple_count := if r.is_simple.getD false then acc.simple_count + 1
        else acc.simple_count,
      complex_count := if r.is_simple.getD false then acc.complex_count
        else acc.complex_count + 1 }
  else
    { acc with
      results := dictSet acc.results f.1 ("[ERROR: " ++ pyStr r.error ++ "]"),
      errors := acc.errors ++ [(f.1, r.error)] }

/-- The aggregate dictionary returned by `ocr_directory` in both files. -/
structure BatchReport where
  results : List (String × String)
  count : Nat
  success_count : Nat
  simple_count : Nat
  complex_count : Nat
  errors : List (String × Option String)
deriving DecidableEq

/-- Model of `sorted(dir_path.glob(pattern))`: the globbed files of one
directory (filename plus per-image oracle), listed by the filesystem in
arbitrary order, sorted by filename (for same-directory paths, `Path`
ordering is string ordering on the filename; `sorted` is a stable
lexicographic sort). -/
def pySortFiles (files : List (String × ImageEnv)) : List (String × ImageEnv) :=
  files.mergeSort (fun a b => decide (a.1 ≤ b.1))

/-- Embedding of `HybridOCR.ocr_directory` (`math-ocr-v2.py` lines
408-471).  `dirExists` models `dir_path.exists()`; the `.error` case is the
`FileNotFoundError` raised before the `try:` block.  The Bool paired with
the report records whether `self.cleanup()` ran: the loop body is total
(every exception is caught inside `ocr_image`), so the `try/finally`
reduces to running the guarded cleanup right after the loop; the empty
listing returns early, before the `try:`, so no cleanup runs there. -/
def HybridOCR.ocr_directory (directory : String) (dirExists : Bool)
    (files : List (String × ImageEnv)) (auto_cleanup : Bool := true) :
    Except String (BatchReport × Bool) :=
  if !dirExists then .error ("Directory not found: " ++ directory)
  else
    let image_files := pySortFiles files
    if image_files.isEmpty then
      .ok ({ results := [], count := 0, success_count := 0,
             simple_count := 0, complex_count := 0, errors := [] }, false)
    else
      let acc := image_files.foldl batchStep ⟨[], [], 0, 0⟩
      .ok ({ results := acc.results, count := acc.results.length,
             success_count := acc.results.length - acc.errors.length,
             simple_count := acc.simple_count, complex_count := acc.complex_count,
             errors := acc.errors }, auto_cleanup)

/-- Embedding of `OCRService.ocr_directory` (`math-ocr-service.py` lines
278-326), the body under the processing lock; it never releases engines
(only a `gc.collect()` with no observable effect on the report). -/
def OCRService.ocr_directory (directory : String) (dirExists : Bool)
    (files : List (String × ImageEnv)) : Except String BatchReport :=
  if !dirExists then .error ("Directory not found: " ++ directory)
  else
    let image_files := pySortFiles files
    if image_files.isEmpty then
      .ok { results := [], count := 0, success_count := 0,
            simple_count := 0, complex_count := 0, errors := [] }
    else
      let acc := image_files.foldl svcBatchStep ⟨[], [], 0, 0⟩
      .ok { results := acc.results, count := acc.results.length,
            success_count := acc.results.length - acc.errors.length,
            simple_count := acc.simple_count, complex_count := acc.complex_count,
            errors := acc.errors }

/-- Forgetting the `content_size` field relates the two dispatchers. -/
def dropSize (r : OCRResult) : SvcOCRResult :=
  { success := r.success, latex := r.latex, file := r.file, error := r.error,
    method := r.method, is_simple := r.is_simple }

/-- The service dispatcher body agrees with the v2 dispatcher body up to
the `content_size` field (the v2 digit re-check is dead logic: it yields
the same text in every branch). -/
theorem svc_ocr_image_run_eq (env : ImageEnv) (p : String) :
    OCRService.ocr_image_run env p = (HybridOCR.ocr_image_run env p).map dropSize := by
  unfold OCRService.ocr_image_run HybridOCR.ocr_image_run
  cases hcrop : env.crop with
  | error e => rfl
  | ok cr =>
    cases cr with
    | none => rfl
    | some wh =>
      obtain ⟨w, h⟩ := wh
      simp only [exceptOkBind]
      by_cases hs : is_simple_content w h = true
      · simp only [hs, if_true]
        cases heasy : env.easy with
        | error e => rfl
        | ok t =>
          simp only [exceptOkBind]
          by_cases hempty : pyStrip t = ""
          · simp only [hempty, if_pos rfl]
            cases hpix : env.pix with
            | error e => rfl
            | ok q =>
              simp [exceptOkBind, exceptPure, Except.map, dropSize]
          · rw [if_neg hempty, if_neg hempty]
            simp [exceptOkBind, exceptPure, Except.map, dropSize]
      · simp only [hs, if_false]
        cases hpix : env.pix with
        | error e => rfl
        | ok q => simp [exceptOkBind, exceptPure, Except.map, dropSize]

/-- The service dispatcher agrees with the v2 dispatcher up to
`content_size`. -/
theorem svc_ocr_image_eq (env : ImageEnv) (p : String) :
    OCRService.ocr_image env p = dropSize (HybridOCR.ocr_image env p) := by
  unfold OCRService.ocr_image HybridOCR.ocr_image
  rw [svc_ocr_image_run_eq]
  cases HybridOCR.ocr_image_run env p with
  | ok r => rfl
  | error e => rfl

/-- The two batch loop bodies build identical aggregation states. -/
theorem svcBatchStep_eq : svcBatchStep = batchStep := by
  funext acc f
  unfold svcBatchStep batchStep
  rw [svc_ocr_image_eq]
  rfl

/-- The service batch runner returns exactly the v2 report (for any value
of the v2 cleanup flag). -/
theorem svc_ocr_directory_eq (directory : String) (dirExists : Bool)
    (files : List (String × ImageEnv)) (ac : Bool) :
    OCRService.ocr_directory directory dirExists files =
      (HybridOCR.ocr_directory directory dirExists files ac).map Prod.fst := by
  unfold OCRService.ocr_directory HybridOCR.ocr_directory
  rw [svcBatchStep_eq]
  by_cases hd : dirExists <;> simp [hd, Except.map]
  split <;> rfl

/-- The results-mapping entry the v2 batch loop produces for one file:
recognized text on success, the tagged sentinel on failure. -/
def batchEntry (f : String × ImageEnv) : String × String :=
  let r := HybridOCR.ocr_image f.2 f.1
  (f.1, if r.success then r.latex else "[ERROR: " ++ pyStr r.error ++ "]")

/-- The error record the v2 batch loop produces for one file (none on
success). -/
def batchErr (f : String × ImageEnv) : Option (String × Option String) :=
  let r := HybridOCR.ocr_image f.2 f.1
  if r.success then none else some (f.1, r.error)

/-- A dict assignment with a fresh key appends the entry. -/
theorem dictSet_fresh (d : List (String × String)) (k v : String)
    (h : ∀ p ∈ d, p.1 ≠ k) : dictSet d k v = d ++ [(k, v)] := by
  have hc : ¬ d.any (fun p => p.1 == k) = true := by
    rw [List.any_eq_true]
    rintro ⟨p, hp, he⟩
    exact h p hp (by simpa using he)
  unfold dictSet
  rw [if_neg hc]

/-- One batch iteration on a fresh filename appends one results entry and
the file's error record. -/
theorem batchStep_results (acc : BatchAcc) (f : String × ImageEnv)
    (h : ∀ p ∈ acc.results, p.1 ≠ f.1) :
    (batchStep acc f).results = acc.results ++ [batchEntry f] ∧
    (batchStep acc f).errors = acc.errors ++ (batchErr f).toList := by
  unfold batchStep batchEntry batchErr
  by_cases hs : (HybridOCR.ocr_image f.2 f.1).success = true
  · simp [hs, dictSet_fresh _ _ _ h]
  · simp [hs, dictSet_fresh _ _ _ h]

/-- The batch loop appends one results entry per processed file and one
error record per failed file, in processing order. -/
theorem batch_foldl_spec : ∀ (fs : List (String × ImageEnv)) (acc : BatchAcc),
    (∀ f ∈ fs, ∀ p ∈ acc.results, p.1 ≠ f.1) → (fs.map Prod.fst).Nodup →
    (fs.foldl batchStep acc).results = acc.results ++ fs.map batchEntry ∧
    (fs.foldl batchStep acc).errors = acc.errors ++ fs.filterMap batchErr := by
  intro fs
  induction fs with
  | nil => intro acc _ _; simp
  | cons f fs ih =>
    intro acc hfresh hnd
    simp only [List.foldl_cons]
    have hstep := batchStep_results acc f (hfresh f (List.mem_cons_self _ _))
    have hnotin : f.1 ∉ fs.map Prod.fst := by
      simp only [List.map_cons, List.nodup_cons] at hnd
      exact hnd.1
    have hfresh' : ∀ g ∈ fs, ∀ p ∈ (batchStep acc f).results, p.1 ≠ g.1 := by
      intro g hg p hp
      rw [hstep.1] at hp
      rcases List.mem_append.mp hp with hp | hp
      · exact hfresh g (List.mem_cons_of_mem _ hg) p hp
      · have hpe : p = batchEntry f := by simpa using hp
        subst hpe
        intro he
        have hfg : f.1 = g.1 := he
        exact hnotin (by rw [hfg]; exact List.mem_map_of_mem Prod.fst hg)
    have hnd' : (fs.map Prod.fst).Nodup := by
      simp only [List.map_cons, List.nodup_cons] at hnd
      exact hnd.2
    obtain ⟨h1, h2⟩ := ih (batchStep acc f) hfresh' hnd'
    constructor
    · rw [h1, hstep.1, List.map_cons, List.append_assoc]
      rfl
    · rw [h2, hstep.2, List.filterMap_cons]
      cases hbe : batchErr f with
      | none => simp [Option.toList]
      | some b => simp [Option.toList, List.append_assoc]

/-- Projection of a finished v2 batch run to its report (the fallback is
never reached when the directory exists). -/
def batchReportOf (x : Except String (BatchReport × Bool)) : BatchReport :=
  match x with
  | .ok (r, _) => r
  | .error _ => { results := [], count := 0, success_count := 0,
                  simple_count := 0, complex_count := 0, errors := [] }

/-- Whether the run invoked `cleanup` (`none` when the run raised before
the loop). -/
def cleanupRanOf (x : Except String (BatchReport × Bool)) : Option Bool :=
  match x with
  | .ok (_, b) => some b
  | .error _ => none

/-- The filename comparison of `pySortFiles` is transitive. -/
theorem fileLE_trans : ∀ (a b c : String × ImageEnv),
    decide (a.1 ≤ b.1) → decide (b.1 ≤ c.1) → decide (a.1 ≤ c.1) := by
  intro a b c hab hbc
  simp only [decide_eq_true_eq] at *
  exact le_trans hab hbc

/-- The filename comparison of `pySortFiles` is total. -/
theorem fileLE_total : ∀ (a b : String × ImageEnv),
    decide (a.1 ≤ b.1) || decide (b.1 ≤ a.1) := by
  intro a b
  rcases le_total a.1 b.1 with h | h <;> simp [h]

/-- Characterization of the v2 batch report on an existing directory:
results and errors are the per-file entries over the lexicographically
sorted listing, the count is the number of discovered files, and the
success count is the count minus the number of error records. -/
theorem hybrid_directory_spec (directory : String)
    (files : List (String × ImageEnv)) (ac : Bool)
    (hnd : (files.map Prod.fst).Nodup) :
    (batchReportOf (HybridOCR.ocr_directory directory true files ac)).results
      = (pySortFiles files).map batchEntry ∧
    (batchReportOf (HybridOCR.ocr_directory directory true files ac)).errors
      = (pySortFiles files).filterMap batchErr ∧
    (batchReportOf (HybridOCR.ocr_directory directory true files ac)).count
      = files.length ∧
    (batchReportOf (HybridOCR.ocr_directory directory true files ac)).success_count
      = files.length -
        (batchReportOf (HybridOCR.ocr_directory directory true files ac)).errors.length := by
  have hperm : List.Perm (pySortFiles files) files := List.mergeSort_perm files _
  have hndsorted : ((pySortFiles files).map Prod.fst).Nodup :=
    ((hperm.map Prod.fst).symm.nodup_iff).mp hnd
  unfold HybridOCR.ocr_directory
  simp only [Bool.not_true, Bool.false_eq_true, if_false]
  by_cases hemp : (pySortFiles files).isEmpty
  · have hsorted_nil : pySortFiles files = [] := List.isEmpty_iff.mp hemp
    have hfiles_nil : files = [] := by
      have := hperm.length_eq
      rw [hsorted_nil] at this
      exact List.length_eq_zero.mp this.symm
    rw [if_pos hemp]
    subst hfiles_nil
    simp [batchReportOf, hsorted_nil]
  · rw [if_neg hemp]
    obtain ⟨hres, herr⟩ := batch_foldl_spec (pySortFiles files) ⟨[], [], 0, 0⟩
      (by intro f _ p hp; simp at hp) hndsorted
    simp only [batchReportOf]
    refine ⟨by simpa using hres, by simpa using herr, ?_, ?_⟩
    · rw [hres]
      simp [hperm.length_eq]
    · rw [hres, herr]
      simp [hperm.length_eq]

/-- C3: on a directory run over distinct filenames, the results mapping has
exactly one entry per discovered file — the recognized text for a success,
the `"[ERROR: <message>]"` sentinel for a failure, which also contributes a
`{filename, errorMessage}` record to the errors sequence — so `count`
equals the number of discovered files and `success_count` equals `count`
minus the number of error records; the service batch runner returns the
identical report. -/
theorem c3_batch_one_entry_per_file (directory : String)
    (files : List (String × ImageEnv)) (ac : Bool)
    (hnd : (files.map Prod.fst).Nodup) :
    (batchReportOf (HybridOCR.ocr_directory directory true files ac)).results
      = (pySortFiles files).map batchEntry ∧
    (batchReportOf (HybridOCR.ocr_directory directory true files ac)).errors
      = (pySortFiles files).filterMap batchErr ∧
    (batchReportOf (HybridOCR.ocr_directory directory true files ac)).count
      = files.length ∧
    (batchReportOf (HybridOCR.ocr_directory directory true files ac)).success_count
      = files.length -
        (batchReportOf (HybridOCR.ocr_directory directory true files ac)).errors.length ∧
    OCRService.ocr_directory directory true files =
      .ok (batchReportOf (HybridOCR.ocr_directory directory true files ac)) := by
  obtain ⟨h1, h2, h3, h4⟩ := hybrid_directory_spec directory files ac hnd
  refine ⟨h1, h2, h3, h4, ?_⟩
  rw [svc_ocr_directory_eq directory true files ac]
  unfold HybridOCR.ocr_directory batchReportOf
  simp only [Bool.not_true, Bool.false_eq_true, if_false]
  by_cases hemp : (pySortFiles files).isEmpty
  · rw [if_pos hemp]
    rfl
  · rw [if_neg hemp]
    rfl

/-- Witness for C3: a one-file directory whose image recognizes "7" yields
a report with one entry, and the service run returns the same report. -/
theorem c3_witness :
    (batchReportOf (HybridOCR.ocr_directory "d" true
      [("a.png", ⟨Except.ok (some (20, 20)), Except.ok "7", Except.ok "x"⟩)] true)).count
      = 1 ∧
    OCRService.ocr_directory "d" true
      [("a.png", ⟨Except.ok (some (20, 20)), Except.ok "7", Except.ok "x"⟩)] =
      .ok (batchReportOf (HybridOCR.ocr_directory "d" true
        [("a.png", ⟨Except.ok (some (20, 20)), Except.ok "7", Except.ok "x"⟩)] true)) :=
  ⟨(c3_batch_one_entry_per_file "d"
      [("a.png", ⟨Except.ok (some (20, 20)), Except.ok "7", Except.ok "x"⟩)] true
      (by simp)).2.2.1,
   (c3_batch_one_entry_per_file "d"
      [("a.png", ⟨Except.ok (some (20, 20)), Except.ok "7", Except.ok "x"⟩)] true
      (by simp)).2.2.2.2⟩

/-- Two permutations that are both strictly sorted by an asymmetric
relation are equal. -/
theorem perm_pairwise_asymm_eq {α : Type} {R : α → α → Prop}
    (hasym : ∀ a b, R a b → R b a → False) :
    ∀ {l₁ l₂ : List α}, List.Perm l₁ l₂ → List.Pairwise R l₁ →
      List.Pairwise R l₂ → l₁ = l₂ := by
  intro l₁
  induction l₁ with
  | nil =>
    intro l₂ hp _ _
    cases l₂ with
    | nil => rfl
    | cons b s =>
      have := hp.length_eq
      simp at this
  | cons a t ih =>
    intro l₂ hp h₁ h₂
    cases l₂ with
    | nil =>
      have := hp.length_eq
      simp at this
    | cons b s =>
      by_cases hab : a = b
      · subst hab
        rw [ih hp.cons_inv (List.pairwise_cons.mp h₁).2 (List.pairwise_cons.mp h₂).2]
      · have ha : a ∈ s := by
          have hmem : a ∈ b :: s := hp.mem_iff.mp (List.mem_cons_self _ _)
          rcases List.mem_cons.mp hmem with h' | h'
          · exact absurd h' hab
          · exact h'
        have hb : b ∈ t := by
          have hmem : b ∈ a :: t := hp.mem_iff.mpr (List.mem_cons_self _ _)
          rcases List.mem_cons.mp hmem with h' | h'
          · exact absurd h'.symm hab
          · exact h'
        exact absurd ((List.pairwise_cons.mp h₂).1 a ha)
          (fun hR2 => hasym a b ((List.pairwise_cons.mp h₁).1 b hb) hR2)

/-- With distinct filenames the sorted listing does not depend on the
filesystem enumeration order. -/
theorem pySortFiles_perm_eq (files₁ files₂ : List (String × ImageEnv))
    (hperm : List.Perm files₁ files₂)
    (hnd : (files₁.map Prod.fst).Nodup) :
    pySortFiles files₁ = pySortFiles files₂ := by
  have hp1 : List.Perm (pySortFiles files₁) files₁ := List.mergeSort_perm _ _
  have hp2 : List.Perm (pySortFiles files₂) files₂ := List.mergeSort_perm _ _
  have hp : List.Perm (pySortFiles files₁) (pySortFiles files₂) :=
    (hp1.trans hperm).trans hp2.symm
  have hnd1 : ((pySortFiles files₁).map Prod.fst).Nodup :=
    ((hp1.map Prod.fst).symm.nodup_iff).mp hnd
  have hnd2 : ((pySortFiles files₂).map Prod.fst).Nodup := by
    have hnd' : (files₂.map Prod.fst).Nodup := ((hperm.map Prod.fst).nodup_iff).mp hnd
    exact ((hp2.map Prod.fst).symm.nodup_iff).mp hnd'
  have hs1 : List.Pairwise (fun a b : String × ImageEnv => a.1 ≤ b.1) (pySortFiles files₁) := by
    have := List.sorted_mergeSort fileLE_trans fileLE_total files₁
    exact this.imp (fun h => by simpa using h)
  have hs2 : List.Pairwise (fun a b : String × ImageEnv => a.1 ≤ b.1) (pySortFiles files₂) := by
    have := List.sorted_mergeSort fileLE_trans fileLE_total files₂
    exact this.imp (fun h => by simpa using h)
  have hlt1 : List.Pairwise (fun a b : String × ImageEnv => a.1 < b.1) (pySortFiles files₁) := by
    have hne := List.pairwise_map.mp hnd1
    exact (hs1.and hne).imp (fun h => lt_of_le_of_ne h.1 h.2)
  have hlt2 : List.Pairwise (fun a b : String × ImageEnv => a.1 < b.1) (pySortFiles files₂) := by
    have hne := List.pairwise_map.mp hnd2
    exact (hs2.and hne).imp (fun h => lt_of_le_of_ne h.1 h.2)
  exact perm_pairwise_asymm_eq (fun a b h1 h2 => absurd h2 (not_lt.mpr (le_of_lt h1)))
    hp hlt1 hlt2

/-- C5: the batch runner processes the discovered files in lexicographic
filename order — the processed listing is a permutation of the enumeration
sorted by filename, and the results and errors sequences follow it — and
the report is independent of the filesystem enumeration order, in both
variants. -/
theorem c5_lexicographic_order (directory : String)
    (files₁ files₂ : List (String × ImageEnv)) (ac : Bool)
    (hperm : List.Perm files₁ files₂)
    (hnd : (files₁.map Prod.fst).Nodup) :
    List.Perm (pySortFiles files₁) files₁ ∧
    List.Pairwise (fun a b : String × ImageEnv => a.1 ≤ b.1) (pySortFiles files₁) ∧
    (batchReportOf (HybridOCR.ocr_directory directory true files₁ ac)).results
      = (pySortFiles files₁).map batchEntry ∧
    (batchReportOf (HybridOCR.ocr_directory directory true files₁ ac)).errors
      = (pySortFiles files₁).filterMap batchErr ∧
    HybridOCR.ocr_directory directory true files₁ ac
      = HybridOCR.ocr_directory directory true files₂ ac ∧
    OCRService.ocr_directory directory true files₁
      = OCRService.ocr_directory directory true files₂ := by
  have hsorteq := pySortFiles_perm_eq files₁ files₂ hperm hnd
  have hdir : HybridOCR.ocr_directory directory true files₁ ac
      = HybridOCR.ocr_directory directory true files₂ ac := by
    unfold HybridOCR.ocr_directory
    rw [hsorteq]
  obtain ⟨h1, h2, _, _⟩ := hybrid_directory_spec directory files₁ ac hnd
  refine ⟨List.mergeSort_perm _ _, ?_, h1, h2, hdir, ?_⟩
  · have := List.sorted_mergeSort fileLE_trans fileLE_total files₁
    exact this.imp (fun h => by simpa using h)
  · rw [svc_ocr_directory_eq directory true files₁ ac,
      svc_ocr_directory_eq directory true files₂ ac, hdir]

/-- Witness for C5: two enumerations of the same two-file directory give
the same run, and the sorted listing is a permutation of the enumeration. -/
theorem c5_witness :
    HybridOCR.ocr_directory "d" true
      [("b.png", ⟨Except.ok none, Except.ok "", Except.ok ""⟩),
       ("a.png", ⟨Except.ok (some (20, 20)), Except.ok "7", Except.ok "x"⟩)] true
      = HybridOCR.ocr_directory "d" true
        [("a.png", ⟨Except.ok (some (20, 20)), Except.ok "7", Except.ok "x"⟩),
         ("b.png", ⟨Except.ok none, Except.ok "", Except.ok ""⟩)] true ∧
    List.Perm (pySortFiles
      [("b.png", ⟨Except.ok none, Except.ok "", Except.ok ""⟩),
       ("a.png", ⟨Except.ok (some (20, 20)), Except.ok "7", Except.ok "x"⟩)])
      [("b.png", ⟨Except.ok none, Except.ok "", Except.ok ""⟩),
       ("a.png", ⟨Except.ok (some (20, 20)), Except.ok "7", Except.ok "x"⟩)] :=
  ⟨(c5_lexicographic_order "d"
      [("b.png", ⟨Except.ok none, Except.ok "", Except.ok ""⟩),
       ("a.png", ⟨Except.ok (some (20, 20)), Except.ok "7", Except.ok "x"⟩)]
      [("a.png", ⟨Except.ok (some (20, 20)), Except.ok "7", Except.ok "x"⟩),
       ("b.png", ⟨Except.ok none, Except.ok "", Except.ok ""⟩)] true
      (List.Perm.swap _ _ _) (by simp)).2.2.2.2.1,
   (c5_lexicographic_order "d"
      [("b.png", ⟨Except.ok none, Except.ok "", Except.ok ""⟩),
       ("a.png", ⟨Except.ok (some (20, 20)), Except.ok "7", Except.ok "x"⟩)]
      [("a.png", ⟨Except.ok (some (20, 20)), Except.ok "7", Except.ok "x"⟩),
       ("b.png", ⟨Except.ok none, Except.ok "", Except.ok ""⟩)] true
      (List.Perm.swap _ _ _) (by simp)).1⟩

/-- Counterexample to C6 as stated: with auto-cleanup enabled, an existing
directory with no matching files returns the empty report with the cleanup
flag `false` — the empty-listing early return happens before the
`try/finally`, so the reclamation policy is not invoked in exactly the case
the claim includes. -/
theorem c6_counterexample :
    HybridOCR.ocr_directory "d" true [] true =
      .ok ({ results := [], count := 0, success_count := 0, simple_count := 0,
             complex_count := 0, errors := [] }, false) := by
  simp [HybridOCR.ocr_directory, pySortFiles]

/-- C6 (amended): in ephemeral mode the v2 batch runner invokes `cleanup`
after processing whenever at least one file matches the pattern (the loop
body is total — every per-image exception is caught inside `ocr_image` —
so the `try/finally` reduces to running the guarded cleanup right after the
loop); when the directory exists but no file matches, the early return
skips the `try/finally` and cleanup is not invoked, and a missing directory
raises before the `try:`, also without cleanup. -/
theorem c6_cleanup_after_processing (directory : String)
    (files : List (String × ImageEnv)) (ac : Bool) :
    (files ≠ [] →
      cleanupRanOf (HybridOCR.ocr_directory directory true files ac) = some ac) ∧
    cleanupRanOf (HybridOCR.ocr_directory directory true [] ac) = some false ∧
    cleanupRanOf (HybridOCR.ocr_directory directory false files ac) = none := by
  refine ⟨?_, ?_, ?_⟩
  · intro hne
    unfold HybridOCR.ocr_directory
    simp only [Bool.not_true, Bool.false_eq_true, if_false]
    have hsne : pySortFiles files ≠ [] := by
      intro h0
      apply hne
      have hlen := (List.mergeSort_perm files
        (fun a b : String × ImageEnv => decide (a.1 ≤ b.1))).length_eq
      rw [show pySortFiles files = files.mergeSort
        (fun a b : String × ImageEnv => decide (a.1 ≤ b.1)) from rfl] at h0
      rw [h0] at hlen
      exact List.length_eq_zero.mp hlen.symm
    rw [if_neg (by simpa [List.isEmpty_iff] using hsne)]
    rfl
  · simp [HybridOCR.ocr_directory, pySortFiles, cleanupRanOf]
  · simp [HybridOCR.ocr_directory, cleanupRanOf]

/-- Witness for C6: a one-file run in ephemeral mode does invoke cleanup,
and a run on a missing directory does not. -/
theorem c6_witness :
    cleanupRanOf (HybridOCR.ocr_directory "d" true
      [("a.png", ⟨Except.ok none, Except.ok "", Except.ok ""⟩)] true) = some true ∧
    cleanupRanOf (HybridOCR.ocr_directory "d" false [] true) = none :=
  ⟨(c6_cleanup_after_processing "d"
      [("a.png", ⟨Except.ok none, Except.ok "", Except.ok ""⟩)] true).1 (by simp),
   (c6_cleanup_after_processing "d" [] true).2.2⟩

/-- Engine-holding state of a `HybridOCR` instance (`math-ocr-v2.py` lines
236-240): an optional opaque handle per engine plus the two
lazy-initialization flags, over arbitrary handle types. -/
structure HybridOCRState (P E : Type) where
  pix2tex_model : Option P
  easyocr_reader : Option E
  pix2tex_initialized : Bool
  easyocr_initialized : Bool
deriving DecidableEq

/-- The state right after `HybridOCR.__init__`. -/
def HybridOCR.initState (P E : Type) : HybridOCRState P E :=
  { pix2tex_model := none, easyocr_reader := none,
    pix2tex_initialized := false, easyocr_initialized := false }

/-- Embedding of `HybridOCR.cleanup` (`math-ocr-v2.py` lines 268-294): for
each engine whose handle is present, drop the handle and clear its flag;
the GPU cache sweep and the stderr reporting do not touch this state, and
the function raises nothing. -/
def HybridOCR.cleanup {P E : Type} (s : HybridOCRState P E) : HybridOCRState P E :=
  let s1 :=
    if s.pix2tex_model.isSome then
      { s with pix2tex_model := none, pix2tex_initialized := false }
    else s
  if s1.easyocr_reader.isSome then
    { s1 with easyocr_reader := none, easyocr_initialized := false }
  else s1

/-- Embedding of `HybridOCR._ensure_pix2tex` (`math-ocr-v2.py` lines
242-253): a no-op when already initialized; otherwise the load either
raises (unavailable dependency or a loading failure — the state is
unchanged, since the handle assignment is the load itself) or stores the
handle and sets the flag. -/
def HybridOCR.ensure_pix2tex {P E : Type} (load : Except String P)
    (s : HybridOCRState P E) : Except String (HybridOCRState P E) :=
  if s.pix2tex_initialized then .ok s
  else
    match load with
    | .error e => .error e
    | .ok m => .ok { s with pix2tex_model := some m, pix2tex_initialized := true }

/-- Embedding of `HybridOCR._ensure_easyocr` (`math-ocr-v2.py` lines
255-266). -/
def HybridOCR.ensure_easyocr {P E : Type} (load : Except String E)
    (s : HybridOCRState P E) : Except String (HybridOCRState P E) :=
  if s.easyocr_initialized then .ok s
  else
    match load with
    | .error e => .error e
    | .ok m => .ok { s with easyocr_reader := some m, easyocr_initialized := true }

/-- Invariant of every reachable adapter state: a set initialization flag
implies a held handle. -/
def flagsMatchHandles {P E : Type} (s : HybridOCRState P E) : Prop :=
  (s.pix2tex_initialized = true → s.pix2tex_model.isSome) ∧
  (s.easyocr_initialized = true → s.easyocr_reader.isSome)

/-- Both adapters unloaded: no handles, no flags. -/
def notLoaded {P E : Type} (s : HybridOCRState P E) : Prop :=
  s.pix2tex_model = none ∧ s.easyocr_reader = none ∧
  s.pix2tex_initialized = false ∧ s.easyocr_initialized = false

/-- Cleanup always leaves both handles dropped. -/
theorem cleanup_handles_none {P E : Type} (s : HybridOCRState P E) :
    (HybridOCR.cleanup s).pix2tex_model = none ∧
    (HybridOCR.cleanup s).easyocr_reader = none := by
  unfold HybridOCR.cleanup
  by_cases h1 : s.pix2tex_model.isSome <;> by_cases h2 : s.easyocr_reader.isSome <;>
    simp_all [Option.not_isSome_iff_eq_none]

/-- The flag-handle invariant holds initially and is preserved by both
ensure operations and by cleanup, so it holds in every reachable state. -/
theorem flagsMatchHandles_invariant {P E : Type} (s : HybridOCRState P E)
    (hs : flagsMatchHandles s) :
    flagsMatchHandles (HybridOCR.initState P E) ∧
    (∀ (load : Except String P) s', HybridOCR.ensure_pix2tex load s = .ok s' →
      flagsMatchHandles s') ∧
    (∀ (load : Except String E) s', HybridOCR.ensure_easyocr load s = .ok s' →
      flagsMatchHandles s') ∧
    flagsMatchHandles (HybridOCR.cleanup s) := by
  refine ⟨⟨by simp [HybridOCR.initState], by simp [HybridOCR.initState]⟩, ?_, ?_, ?_⟩
  · intro load s' h
    unfold HybridOCR.ensure_pix2tex at h
    by_cases hinit : s.pix2tex_initialized
    · rw [if_pos hinit] at h
      obtain rfl : s = s' := by injection h
      exact hs
    · rw [if_neg hinit] at h
      cases load with
      | error e => exact absurd h (by simp)
      | ok m =>
        obtain rfl : { s with pix2tex_model := some m, pix2tex_initialized := true } = s' := by
          injection h
        exact ⟨fun _ => by simp, fun he => hs.2 he⟩
  · intro load s' h
    unfold HybridOCR.ensure_easyocr at h
    by_cases hinit : s.easyocr_initialized
    · rw [if_pos hinit] at h
      obtain rfl : s = s' := by injection h
      exact hs
    · rw [if_neg hinit] at h
      cases load with
      | error e => exact absurd h (by simp)
      | ok m =>
        obtain rfl : { s with easyocr_reader := some m, easyocr_initialized := true } = s' := by
          injection h
        exact ⟨fun he => hs.1 he, fun _ => by simp⟩
  · unfold HybridOCR.cleanup
    by_cases h1 : s.pix2tex_model.isSome <;> by_cases h2 : s.easyocr_reader.isSome <;>
      simp_all [flagsMatchHandles]

/-- C7: the resource release is total (the embedding is a function — the
Python body raises nothing) and idempotent: running `cleanup` twice equals
running it once, on any reachable state (flags implying handles) one run
already leaves both adapters not-loaded, and running it before anything
was loaded keeps the fresh state unchanged and not-loaded. -/
theorem c7_cleanup_idempotent {P E : Type} (s : HybridOCRState P E) :
    HybridOCR.cleanup (HybridOCR.cleanup s) = HybridOCR.cleanup s ∧
    (flagsMatchHandles s → notLoaded (HybridOCR.cleanup s)) ∧
    HybridOCR.cleanup (HybridOCR.initState P E) = HybridOCR.initState P E ∧
    notLoaded (HybridOCR.initState P E) := by
  obtain ⟨hp, he⟩ := cleanup_handles_none s
  refine ⟨?_, ?_, ?_, ?_⟩
  · conv_lhs => rw [HybridOCR.cleanup]
    simp [hp, he]
  · intro hs
    refine ⟨hp, he, ?_, ?_⟩
    · unfold HybridOCR.cleanup
      by_cases h1 : s.pix2tex_model.isSome <;> by_cases h2 : s.easyocr_reader.isSome <;>
        simp_all [flagsMatchHandles]
    · unfold HybridOCR.cleanup
      by_cases h1 : s.pix2tex_model.isSome <;> by_cases h2 : s.easyocr_reader.isSome <;>
        simp_all [flagsMatchHandles]
  · unfold HybridOCR.cleanup HybridOCR.initState
    simp
  · exact ⟨rfl, rfl, rfl, rfl⟩

/-- Witness for C7: a fully loaded adapter state (Nat handles) satisfies
the invariant; one cleanup reaches the not-loaded state and a second one
changes nothing. -/
theorem c7_witness :
    flagsMatchHandles (⟨some 0, some 1, true, true⟩ : HybridOCRState Nat Nat) ∧
    notLoaded (HybridOCR.cleanup (⟨some 0, some 1, true, true⟩ : HybridOCRState Nat Nat)) ∧
    HybridOCR.cleanup (HybridOCR.cleanup
        (⟨some 0, some 1, true, true⟩ : HybridOCRState Nat Nat))
      = HybridOCR.cleanup (⟨some 0, some 1, true, true⟩ : HybridOCRState Nat Nat) :=
  ⟨⟨fun _ => rfl, fun _ => rfl⟩,
   (c7_cleanup_idempotent ⟨some 0, some 1, true, true⟩).2.1 ⟨fun _ => rfl, fun _ => rfl⟩,
   (c7_cleanup_idempotent (⟨some 0, some 1, true, true⟩ : HybridOCRState Nat Nat)).1⟩

/-- Atomic actions of the service's request handlers: taking and releasing
the processing gate (`self._processing_lock`) and the span of one OCR
execution. -/
inductive SvcAction
  | acquire
  | release
  | beginOCR
  | endOCR
deriving DecidableEq

/-- Trace shape of `OCRService.ocr_directory` (`math-ocr-service.py` lines
278-280): `with self._processing_lock:` wrapped around the sequential
recognition work (one OCR span stands for the whole loop). -/
def batchProgram : List SvcAction :=
  [SvcAction.acquire, SvcAction.beginOCR, SvcAction.endOCR, SvcAction.release]

/-- Trace shape of the `/ocr/single` handler (`math-ocr-service.py` lines
393-404): it submits `ocr_service.ocr_image` to an executor thread and
never touches the processing gate. -/
def singleProgram : List SvcAction :=
  [SvcAction.beginOCR, SvcAction.endOCR]

/-- Interleaving state: the remaining actions of each handler thread,
whether the gate is held, and the threads currently inside an OCR
execution. -/
structure SvcConfig where
  threads : List (List SvcAction)
  lockHeld : Bool
  active : List Nat
deriving DecidableEq

/-- One interleaving step: some thread executes its next atomic action;
`Lock.acquire` can only fire while the gate is free (a blocked thread
waits). -/
inductive SvcStep : SvcConfig → SvcConfig → Prop where
  | acquire (c : SvcConfig) (i : Nat) (rest : List SvcAction)
      (hth : c.threads.get? i = some (SvcAction.acquire :: rest))
      (hlock : c.lockHeld = false) :
      SvcStep c ⟨c.threads.set i rest, true, c.active⟩
  | release (c : SvcConfig) (i : Nat) (rest : List SvcAction)
      (hth : c.threads.get? i = some (SvcAction.release :: rest)) :
      SvcStep c ⟨c.threads.set i rest, false, c.active⟩
  | beginOCR (c : SvcConfig) (i : Nat) (rest : List SvcAction)
      (hth : c.threads.get? i = some (SvcAction.beginOCR :: rest)) :
      SvcStep c ⟨c.threads.set i rest, c.lockHeld, i :: c.active⟩
  | endOCR (c : SvcConfig) (i : Nat) (rest : List SvcAction)
      (hth : c.threads.get? i = some (SvcAction.endOCR :: rest)) :
      SvcStep c ⟨c.threads.set i rest, c.lockHeld, c.active.erase i⟩

/-- Reachability by interleaving steps. -/
inductive SvcReach : SvcConfig → SvcConfig → Prop where
  | refl (c : SvcConfig) : SvcReach c c
  | tail {a b c : SvcConfig} : SvcReach a b → SvcStep b c → SvcReach a c

/-- In the system of one batch request and one concurrently submitted
single-image request, the schedule `batch acquires the gate, batch begins
OCR, single begins OCR` reaches a state where both threads are inside an
OCR execution while the batch holds the gate. -/
theorem mixed_overlap_reachable :
    SvcReach ⟨[batchProgram, singleProgram], false, []⟩
      ⟨[[SvcAction.endOCR, SvcAction.release], [SvcAction.endOCR]], true, [1, 0]⟩ := by
  have h1 : SvcStep ⟨[batchProgram, singleProgram], false, []⟩
      ⟨[[SvcAction.beginOCR, SvcAction.endOCR, SvcAction.release],
        [SvcAction.beginOCR, SvcAction.endOCR]], true, []⟩ :=
    SvcStep.acquire _ 0 _ rfl rfl
  have h2 : SvcStep ⟨[[SvcAction.beginOCR, SvcAction.endOCR, SvcAction.release],
        [SvcAction.beginOCR, SvcAction.endOCR]], true, []⟩
      ⟨[[SvcAction.endOCR, SvcAction.release],
        [SvcAction.beginOCR, SvcAction.endOCR]], true, [0]⟩ :=
    SvcStep.beginOCR _ 0 _ rfl
  have h3 : SvcStep ⟨[[SvcAction.endOCR, SvcAction.release],
        [SvcAction.beginOCR, SvcAction.endOCR]], true, [0]⟩
      ⟨[[SvcAction.endOCR, SvcAction.release], [SvcAction.endOCR]], true, [1, 0]⟩ :=
    SvcStep.beginOCR _ 1 _ rfl
  exact SvcReach.tail (SvcReach.tail (SvcReach.tail (SvcReach.refl _) h1) h2) h3

/-- Counterexample to C9 as stated: the single-image handler takes the
processing gate nowhere, so a single-image request submitted while a batch
holds the gate does not wait — the system reaches a state with the batch
(thread 0) and the single request (thread 1) simultaneously inside OCR
executions. -/
theorem c9_counterexample :
    SvcReach ⟨[batchProgram, singleProgram], false, []⟩
      ⟨[[SvcAction.endOCR, SvcAction.release], [SvcAction.endOCR]], true, [1, 0]⟩ ∧
    0 ∈ ([1, 0] : List Nat) ∧ 1 ∈ ([1, 0] : List Nat) :=
  ⟨mixed_overlap_reachable, by simp, by simp⟩

/-- Residual programs a batch thread can have. -/
def batchSuffix (l : List SvcAction) : Prop :=
  l = batchProgram ∨
  l = [SvcAction.beginOCR, SvcAction.endOCR, SvcAction.release] ∨
  l = [SvcAction.endOCR, SvcAction.release] ∨
  l = [SvcAction.release] ∨ l = []

/-- A batch thread holds the gate from its acquire to its release. -/
def holdsGate (l : List SvcAction) : Bool :=
  match l with
  | [SvcAction.beginOCR, SvcAction.endOCR, SvcAction.release] => true
  | [SvcAction.endOCR, SvcAction.release] => true
  | [SvcAction.release] => true
  | _ => false

/-- Inductive invariant of the two-batch system: both threads run residual
batch programs, the gate state mirrors the (at most one) holder, and a
thread is inside an OCR execution exactly when its residual program is
`[endOCR, release]`. -/
def TwoBatchInv (c : SvcConfig) : Prop :=
  ∃ l0 l1, c.threads = [l0, l1] ∧ batchSuffix l0 ∧ batchSuffix l1 ∧
    c.lockHeld = (holdsGate l0 || holdsGate l1) ∧
    ¬(holdsGate l0 = true ∧ holdsGate l1 = true) ∧
    (∀ i, i ∈ c.active ↔
      (i = 0 ∧ l0 = [SvcAction.endOCR, SvcAction.release]) ∨
      (i = 1 ∧ l1 = [SvcAction.endOCR, SvcAction.release])) ∧
    c.active.Nodup

/-- The two-batch invariant is preserved by every interleaving step. -/
theorem twoBatchInv_step {c c' : SvcConfig} (hinv : TwoBatchInv c)
    (hs : SvcStep c c') : TwoBatchInv c' := by
  obtain ⟨l0, l1, hth, hb0, hb1, hlock, hmux, hact, hnd⟩ := hinv
  cases hs with
  | acquire i rest hith hlck =>
    rw [hth] at hith
    have hi : i = 0 ∨ i = 1 := by
      match i with
      | 0 => exact Or.inl rfl
      | 1 => exact Or.inr rfl
      | n + 2 => simp at hith
    rw [hlock] at hlck
    have hg0 : holdsGate l0 = false := by
      cases hv : holdsGate l0 <;> simp_all
    have hg1 : holdsGate l1 = false := by
      cases hv : holdsGate l1 <;> simp_all
    rcases hi with rfl | rfl
    · have hl0 : l0 = SvcAction.acquire :: rest := by
        simpa using hith
      have hrest : rest = [SvcAction.beginOCR, SvcAction.endOCR, SvcAction.release] := by
        rcases hb0 with h | h | h | h | h <;> rw [h] at hl0 <;>
          first
            | (simp [batchProgram] at hl0; first | exact hl0 | exact hl0.symm)
            | (simp at hl0; first | exact hl0 | exact hl0.symm)
            | simp [batchProgram] at hl0
            | simp at hl0
      refine ⟨rest, l1, by rw [hth]; rfl, by rw [hrest]; exact Or.inr (Or.inl rfl), hb1,
        ?_, ?_, ?_, hnd⟩
      · rw [hrest, hg1]
        rfl
      · rw [hrest, hg1]
        simp
      · intro j
        rw [hact j, hl0, hrest]
        simp
    · have hl1 : l1 = SvcAction.acquire :: rest := by
        simpa using hith
      have hrest : rest = [SvcAction.beginOCR, SvcAction.endOCR, SvcAction.release] := by
        rcases hb1 with h | h | h | h | h <;> rw [h] at hl1 <;>
          first
            | (simp [batchProgram] at hl1; first | exact hl1 | exact hl1.symm)
            | (simp at hl1; first | exact hl1 | exact hl1.symm)
            | simp [batchProgram] at hl1
            | simp at hl1
      refine ⟨l0, rest, by rw [hth]; rfl, hb0, by rw [hrest]; exact Or.inr (Or.inl rfl),
        ?_, ?_, ?_, hnd⟩
      · rw [hrest, hg0]
        rfl
      · rw [hrest, hg0]
        simp
      · intro j
        rw [hact j, hl1, hrest]
        simp
  | release i rest hith =>
    rw [hth] at hith
    have hi : i = 0 ∨ i = 1 := by
      match i with
      | 0 => exact Or.inl rfl
      | 1 => exact Or.inr rfl
      | n + 2 => simp at hith
    rcases hi with rfl | rfl
    · have hl0 : l0 = SvcAction.release :: rest := by
        simpa using hith
      have hrest : rest = [] := by
        rcases hb0 with h | h | h | h | h <;> rw [h] at hl0 <;>
          first
            | (simp [batchProgram] at hl0; first | exact hl0 | exact hl0.symm)
            | (simp at hl0; first | exact hl0 | exact hl0.symm)
            | simp [batchProgram] at hl0
            | simp at hl0
      refine ⟨rest, l1, by rw [hth]; rfl, by rw [hrest]; exact Or.inr (Or.inr (Or.inr (Or.inr rfl))), hb1,
        ?_, ?_, ?_, hnd⟩
      · have hg1 : holdsGate l1 = false := by
          have hg0 : holdsGate l0 = true := by rw [hl0, hrest]; rfl
          cases hv : holdsGate l1
          · rfl
          · exact absurd ⟨hg0, hv⟩ hmux
        rw [hrest, hg1]
        rfl
      · rw [hrest]
        simp [holdsGate]
      · intro j
        rw [hact j, hl0, hrest]
        simp
    · have hl1 : l1 = SvcAction.release :: rest := by
        simpa using hith
      have hrest : rest = [] := by
        rcases hb1 with h | h | h | h | h <;> rw [h] at hl1 <;>
          first
            | (simp [batchProgram] at hl1; first | exact hl1 | exact hl1.symm)
            | (simp at hl1; first | exact hl1 | exact hl1.symm)
            | simp [batchProgram] at hl1
            | simp at hl1
      refine ⟨l0, rest, by rw [hth]; rfl, hb0, by rw [hrest]; exact Or.inr (Or.inr (Or.inr (Or.inr rfl))),
        ?_, ?_, ?_, hnd⟩
      · have hg0 : holdsGate l0 = false := by
          have hg1 : holdsGate l1 = true := by rw [hl1, hrest]; rfl
          cases hv : holdsGate l0
          · rfl
          · exact absurd ⟨hv, hg1⟩ hmux
        rw [hrest, hg0]
        rfl
      · rw [hrest]
        simp [holdsGate]
      · intro j
        rw [hact j, hl1, hrest]
        simp
  | beginOCR i rest hith =>
    rw [hth] at hith
    have hi : i = 0 ∨ i = 1 := by
      match i with
      | 0 => exact Or.inl rfl
      | 1 => exact Or.inr rfl
      | n + 2 => simp at hith
    rcases hi with rfl | rfl
    · have hl0 : l0 = SvcAction.beginOCR :: rest := by
        simpa using hith
      have hrest : rest = [SvcAction.endOCR, SvcAction.release] := by
        rcases hb0 with h | h | h | h | h <;> rw [h] at hl0 <;>
          first
            | (simp [batchProgram] at hl0; first | exact hl0 | exact hl0.symm)
            | (simp at hl0; first | exact hl0 | exact hl0.symm)
            | simp [batchProgram] at hl0
            | simp at hl0
      have hnotin : (0 : Nat) ∉ c.active := by
        rw [hact 0]
        rintro (⟨-, h⟩ | ⟨h, -⟩)
        · rw [hl0, hrest] at h
          simp at h
        · simp at h
      refine ⟨rest, l1, by rw [hth]; rfl, by rw [hrest]; exact Or.inr (Or.inr (Or.inl rfl)), hb1,
        ?_, ?_, ?_, ?_⟩
      · rw [hlock, hl0, hrest]
        rfl
      · have : holdsGate l0 = true := by rw [hl0, hrest]; rfl
        rw [hrest]
        intro hcon
        exact hmux ⟨this, hcon.2⟩
      · intro j
        simp only [List.mem_cons]
        rw [hact j, hl0, hrest]
        by_cases hj : j = 0 <;> simp [hj]
      · exact List.Nodup.cons hnotin hnd
    · have hl1 : l1 = SvcAction.beginOCR :: rest := by
        simpa using hith
      have hrest : rest = [SvcAction.endOCR, SvcAction.release] := by
        rcases hb1 with h | h | h | h | h <;> rw [h] at hl1 <;>
          first
            | (simp [batchProgram] at hl1; first | exact hl1 | exact hl1.symm)
            | (simp at hl1; first | exact hl1 | exact hl1.symm)
            | simp [batchProgram] at hl1
            | simp at hl1
      have hnotin : (1 : Nat) ∉ c.active := by
        rw [hact 1]
        rintro (⟨h, -⟩ | ⟨-, h⟩)
        · simp at h
        · rw [hl1, hrest] at h
          simp at h
      refine ⟨l0, rest, by rw [hth]; rfl, hb0, by rw [hrest]; exact Or.inr (Or.inr (Or.inl rfl)),
        ?_, ?_, ?_, ?_⟩
      · rw [hlock, hl1, hrest]
        simp [holdsGate]
      · have : holdsGate l1 = true := by rw [hl1, hrest]; rfl
        rw [hrest]
        intro hcon
        exact hmux ⟨hcon.1, this⟩
      · intro j
        simp only [List.mem_cons]
        rw [hact j, hl1, hrest]
        by_cases hj : j = 1 <;> simp [hj]
      · exact List.Nodup.cons hnotin hnd
  | endOCR i rest hith =>
    rw [hth] at hith
    have hi : i = 0 ∨ i = 1 := by
      match i with
      | 0 => exact Or.inl rfl
      | 1 => exact Or.inr rfl
      | n + 2 => simp at hith
    rcases hi with rfl | rfl
    · have hl0 : l0 = SvcAction.endOCR :: rest := by
        simpa using hith
      have hrest : rest = [SvcAction.release] := by
        rcases hb0 with h | h | h | h | h <;> rw [h] at hl0 <;>
          first
            | (simp [batchProgram] at hl0; first | exact hl0 | exact hl0.symm)
            | (simp at hl0; first | exact hl0 | exact hl0.symm)
            | simp [batchProgram] at hl0
            | simp at hl0
      refine ⟨rest, l1, by rw [hth]; rfl, by rw [hrest]; exact Or.inr (Or.inr (Or.inr (Or.inl rfl))), hb1,
        ?_, ?_, ?_, hnd.erase 0⟩
      · rw [hlock, hl0, hrest]
        rfl
      · have : holdsGate l0 = true := by rw [hl0]; rw [hrest]; rfl
        rw [hrest]
        intro hcon
        exact hmux ⟨this, hcon.2⟩
      · intro j
        by_cases hj : j = 0
        · subst hj
          constructor
          · intro hmem
            exact absurd hmem (hnd.not_mem_erase)
          · rintro (⟨-, h⟩ | ⟨h, -⟩)
            · rw [hrest] at h
              simp at h
            · simp at h
        · rw [List.mem_erase_of_ne hj, hact j, hrest]
          simp [hj]
    · have hl1 : l1 = SvcAction.endOCR :: rest := by
        simpa using hith
      have hrest : rest = [SvcAction.release] := by
        rcases hb1 with h | h | h | h | h <;> rw [h] at hl1 <;>
          first
            | (simp [batchProgram] at hl1; first | exact hl1 | exact hl1.symm)
            | (simp at hl1; first | exact hl1 | exact hl1.symm)
            | simp [batchProgram] at hl1
            | simp at hl1
      refine ⟨l0, rest, by rw [hth]; rfl, hb0, by rw [hrest]; exact Or.inr (Or.inr (Or.inr (Or.inl rfl))),
        ?_, ?_, ?_, hnd.erase 1⟩
      · rw [hlock, hl1, hrest]
        simp [holdsGate]
      · have : holdsGate l1 = true := by rw [hl1]; rw [hrest]; rfl
        rw [hrest]
        intro hcon
        exact hmux ⟨hcon.1, this⟩
      · intro j
        by_cases hj : j = 1
        · subst hj
          constructor
          · intro hmem
            exact absurd hmem (hnd.not_mem_erase)
          · rintro (⟨h, -⟩ | ⟨-, h⟩)
            · simp at h
            · rw [hrest] at h
              simp at h
        · rw [List.mem_erase_of_ne hj, hact j, hrest]
          simp [hj]

/-- C9 (amended): the processing gate does serialize batch executions — in
the system of two batch requests, every reachable configuration has at most
one thread inside an OCR execution — but a single-image request never
takes the gate, so it can be inside an OCR execution concurrently with a
batch that holds the gate. -/
theorem c9_single_requests_bypass_gate :
    (∀ c : SvcConfig, SvcReach ⟨[batchProgram, batchProgram], false, []⟩ c →
      ∀ i j, i ∈ c.active → j ∈ c.active → i = j) ∧
    (SvcReach ⟨[batchProgram, singleProgram], false, []⟩
        ⟨[[SvcAction.endOCR, SvcAction.release], [SvcAction.endOCR]], true, [1, 0]⟩ ∧
      0 ∈ ([1, 0] : List Nat) ∧ 1 ∈ ([1, 0] : List Nat)) := by
  constructor
  · intro c hreach
    have hinv : TwoBatchInv c := by
      induction hreach with
      | refl =>
        refine ⟨batchProgram, batchProgram, rfl, Or.inl rfl, Or.inl rfl, rfl, ?_, ?_,
          List.nodup_nil⟩
        · decide
        · intro i
          simp [batchProgram]
      | tail hr hs ih => exact twoBatchInv_step ih hs
    obtain ⟨l0, l1, hth, hb0, hb1, hlock, hmux, hact, hnd⟩ := hinv
    intro i j hi hj
    rw [hact i] at hi
    rw [hact j] at hj
    rcases hi with ⟨rfl, h0⟩ | ⟨rfl, h0⟩ <;> rcases hj with ⟨rfl, h1⟩ | ⟨rfl, h1⟩
    · rfl
    · exact absurd ⟨by rw [h0]; rfl, by rw [h1]; rfl⟩ hmux
    · exact absurd ⟨by rw [h1]; rfl, by rw [h0]; rfl⟩ hmux
    · rfl
  · exact ⟨mixed_overlap_reachable, by simp, by simp⟩

/-- Witness for C9: a reachable two-batch configuration with thread 0
inside its OCR execution; the serialization theorem applied there. -/
theorem c9_witness :
    SvcReach ⟨[batchProgram, batchProgram], false, []⟩
      ⟨[[SvcAction.endOCR, SvcAction.release], batchProgram], true, [0]⟩ ∧
    (0 : Nat) = 0 := by
  have h1 : SvcStep ⟨[batchProgram, batchProgram], false, []⟩
      ⟨[[SvcAction.beginOCR, SvcAction.endOCR, SvcAction.release], batchProgram],
        true, []⟩ :=
    SvcStep.acquire _ 0 _ rfl rfl
  have h2 : SvcStep ⟨[[SvcAction.beginOCR, SvcAction.endOCR, SvcAction.release],
        batchProgram], true, []⟩
      ⟨[[SvcAction.endOCR, SvcAction.release], batchProgram], true, [0]⟩ :=
    SvcStep.beginOCR _ 0 _ rfl
  have hreach := SvcReach.tail (SvcReach.tail (SvcReach.refl _) h1) h2
  exact ⟨hreach, c9_single_requests_bypass_gate.1 _ hreach 0 0 (by simp) (by simp)⟩
